import Mathlib

/-!
Verification of the sentiment-analysis pipeline in `senti.py`.

Strings are embedded as `List Char`, Python floats as exact rationals (`ℚ`),
and the two external analyzers (TextBlob and VADER) as opaque function
parameters, since the repository treats them as black boxes.  The character
classes model the ASCII fragment of Python's `\w` and `\s`.
-/

set_option autoImplicit false

/-- Character class of Python's `\s` (ASCII fragment): the whitespace
characters recognised by `str.split()` and `str.strip()`. -/
def isSpaceChar (c : Char) : Bool :=
  c = ' ' || c = '\t' || c = '\n' || c = '\r' || c = '\x0b' || c = '\x0c'

/-- Character class of Python's `\w` (ASCII fragment): alphanumerics and
underscore. -/
def isWordChar (c : Char) : Bool :=
  c.isAlphanum || c = '_'

/-- Characters kept by the third substitution `re.sub(r'[^\w\s]', '', text)`
in `clean_text` (senti.py line 39): word characters and whitespace. -/
def keepChar (c : Char) : Bool :=
  isWordChar c || isSpaceChar c

/-- First-of-two options, modelling regex alternation: the left alternative
is preferred when it matches. -/
def altOr : Option (List Char) → Option (List Char) → Option (List Char)
  | some r, _ => some r
  | none, b => b

/-- Matches `\S+` (one or more non-whitespace characters, greedy) at the head
of the list; on success returns the remainder after the maximal run. -/
def matchTailNonSpace : List Char → Option (List Char)
  | [] => none
  | c :: rest =>
    if isSpaceChar c then none
    else some (rest.dropWhile (fun d => !isSpaceChar d))

/-- Matches the pattern `http\S+|www\S+|https\S+` of senti.py line 37 at the
head of the list (alternatives tried left to right, as `re` does); on success
returns the remainder of the list after the match. -/
def matchUrlAt (l : List Char) : Option (List Char) :=
  altOr (if l.take 4 = ['h', 't', 't', 'p'] then matchTailNonSpace (l.drop 4) else none)
    (altOr (if l.take 3 = ['w', 'w', 'w'] then matchTailNonSpace (l.drop 3) else none)
      (if l.take 5 = ['h', 't', 't', 'p', 's'] then matchTailNonSpace (l.drop 5) else none))

/-- Left-to-right scan of `re.sub(r'http\S+|www\S+|https\S+', '', text)`:
at each position, if the URL pattern matches, the match is deleted and the
scan resumes after it; otherwise the character is kept.  The `fuel` argument
makes the recursion structural; every step consumes at least one character,
so `fuel = l.length` (as used in `removeUrls`) never runs out. -/
def removeUrlsGo : Nat → List Char → List Char
  | _, [] => []
  | 0, l => l
  | fuel + 1, c :: rest =>
    match matchUrlAt (c :: rest) with
    | some r => removeUrlsGo fuel r
    | none => c :: removeUrlsGo fuel rest

/-- Embedding of senti.py line 37:
`text = re.sub(r'http\S+|www\S+|https\S+', '', text, flags=re.MULTILINE)`
(the MULTILINE flag only affects `^`/`$`, which do not occur). -/
def removeUrls (l : List Char) : List Char :=
  removeUrlsGo l.length l

/-- Matches `\w+` (one or more word characters, greedy) at the head of the
list; on success returns the remainder after the maximal run. -/
def matchTailWord : List Char → Option (List Char)
  | [] => none
  | c :: rest =>
    if isWordChar c then some (rest.dropWhile isWordChar) else none

/-- Matches the pattern `@\w+|#\w+` of senti.py line 38 at the head of the
list; on success returns the remainder after the match. -/
def matchMentionAt : List Char → Option (List Char)
  | [] => none
  | c :: rest =>
    if c = '@' || c = '#' then matchTailWord rest else none

/-- Left-to-right scan of `re.sub(r'@\w+|#\w+', '', text)`, fuelled like
`removeUrlsGo`; every step consumes at least one character, so
`fuel = l.length` never runs out. -/
def removeMentionsGo : Nat → List Char → List Char
  | _, [] => []
  | 0, l => l
  | fuel + 1, c :: rest =>
    match matchMentionAt (c :: rest) with
    | some r => removeMentionsGo fuel r
    | none => c :: removeMentionsGo fuel rest

/-- Embedding of senti.py line 38: `text = re.sub(r'@\w+|#\w+', '', text)`. -/
def removeMentions (l : List Char) : List Char :=
  removeMentionsGo l.length l

/-- Helper for `splitWs`: accumulates the current word (reversed) in `acc`,
emitting it when whitespace or the end of the input is reached. -/
def splitWsAux : List Char → List Char → List (List Char)
  | [], acc => if acc.isEmpty then [] else [acc.reverse]
  | c :: rest, acc =>
    if isSpaceChar c then
      if acc.isEmpty then splitWsAux rest []
      else acc.reverse :: splitWsAux rest []
    else splitWsAux rest (c :: acc)

/-- Embedding of Python `text.split()` (no separator argument): splits on
runs of whitespace, discarding empty pieces. -/
def splitWs (l : List Char) : List (List Char) :=
  splitWsAux l []

/-- Embedding of Python `' '.join(pieces)`. -/
def joinSp : List (List Char) → List Char
  | [] => []
  | [t] => t
  | t :: ts => t ++ ' ' :: joinSp ts

/-- Embedding of Python `text.strip()`: removes leading and trailing
whitespace. -/
def pyStrip (l : List Char) : List Char :=
  ((l.dropWhile isSpaceChar).reverse.dropWhile isSpaceChar).reverse

/-- Embedding of `clean_text` (senti.py lines 33-41), for string arguments:
URL removal, then mention/hashtag removal, then punctuation removal, then
whitespace normalisation and a final strip.  The `isinstance` check of
line 34 is modelled separately by `clean_text_py`. -/
def clean_text (text : List Char) : List Char :=
  let t1 := removeUrls text
  let t2 := removeMentions t1
  let t3 := List.filter keepChar t2
  let t4 := joinSp (splitWs t3)
  pyStrip t4

/-- Decides that no suffix of the list matches the URL pattern
`http\S+|www\S+|https\S+`, i.e. that `removeUrls` has nothing to delete. -/
def noUrlB : List Char → Bool
  | [] => true
  | c :: rest => (matchUrlAt (c :: rest)).isNone && noUrlB rest

/-- Dynamically-typed values a JSON body can put in the `text` field or in the
`texts` list: strings, numbers, booleans, null, and (nested) arrays. -/
inductive PyVal where
  | str (s : List Char)
  | int (n : Int)
  | bool (b : Bool)
  | none
  | list (xs : List PyVal)

/-- Embedding of `clean_text` for arbitrary arguments (senti.py lines 33-41):
the `isinstance(text, str)` check of line 34 raises
`ValueError("Input text must be a string")` on non-strings; on strings the
pure pipeline `clean_text` runs and cannot raise. -/
def clean_text_py (text : PyVal) : Except String (List Char) :=
  match text with
  | .str s => .ok (clean_text s)
  | _ => .error "Input text must be a string"

mutual

/-- Embedding of Python `str(x)` for the values of `PyVal`, used by the batch
endpoint's error records (senti.py line 183).  Quote-escaping inside `repr`
of nested strings is not modelled. -/
def pyStr : PyVal → List Char
  | .str s => s
  | .int n => (toString n).toList
  | .bool true => ['T', 'r', 'u', 'e']
  | .bool false => ['F', 'a', 'l', 's', 'e']
  | .none => ['N', 'o', 'n', 'e']
  | .list xs => '[' :: pyReprList xs ++ [']']

/-- Embedding of Python `repr(x)` as used by `str` on list elements. -/
def pyRepr : PyVal → List Char
  | .str s => '\'' :: s ++ ['\'']
  | .int n => (toString n).toList
  | .bool true => ['T', 'r', 'u', 'e']
  | .bool false => ['F', 'a', 'l', 's', 'e']
  | .none => ['N', 'o', 'n', 'e']
  | .list xs => '[' :: pyReprList xs ++ [']']

/-- Comma-separated `repr`s of the elements of a Python list. -/
def pyReprList : List PyVal → List Char
  | [] => []
  | [x] => pyRepr x
  | x :: xs => pyRepr x ++ ',' :: ' ' :: pyReprList xs

end

/-- Result record built by both endpoints on success
(senti.py lines 97-105 and 214-222). -/
structure SentimentResult where
  original_text : List Char
  cleaned_text : List Char
  sentiment : String
  textblob_polarity : ℚ
  textblob_subjectivity : ℚ
  vader_compound : ℚ
  combined_polarity : ℚ
deriving DecidableEq

/-- Embedding of the combination-and-classification block that appears
verbatim in both handlers (senti.py lines 89-95 and 206-212): the average of
the two analyzer scores and the three-way threshold rule.  Python floats are
modelled as exact rationals. -/
def classify (polarity compound : ℚ) : ℚ × String :=
  let combined_polarity := (polarity + compound) / 2
  let sentiment :=
    if combined_polarity > 1 / 10 then "positive"
    else if combined_polarity < -(1 / 10) then "negative"
    else "neutral"
  (combined_polarity, sentiment)

/-- Outcome of the single-text handler after JSON decoding: a 200 with a
`SentimentResult`, or a 400 with an error message. -/
inductive AnalyzeResponse where
  | ok (result : SentimentResult)
  | clientError (msg : String)
deriving DecidableEq

/-- Embedding of the single-text pipeline, senti.py lines 62-108, starting
from the extracted `text` value (the HTTP/JSON layer above line 62 is out of
scope), for string inputs.  `tb` is the TextBlob analyzer
(polarity, subjectivity) and `vd` the VADER compound score.  The second
component records every cleaned string handed to an analyzer. -/
def analyze_sentiment_core (tb : List Char → ℚ × ℚ) (vd : List Char → ℚ)
    (text : List Char) : AnalyzeResponse × List (List Char) :=
  if text = [] ∨ (pyStrip text).length = 0 then
    (.clientError "Text cannot be empty.", [])
  else if text.length > 1000 then
    (.clientError "Text is too long. Maximum length is 1000 characters.", [])
  else
    let cleaned_text := clean_text text
    if cleaned_text = [] then
      (.clientError "Text is empty after cleaning.", [])
    else
      let tbScores := tb cleaned_text
      let vader_compound := vd cleaned_text
      let combined := classify tbScores.1 vader_compound
      (.ok { original_text := text, cleaned_text := cleaned_text,
             sentiment := combined.2, textblob_polarity := tbScores.1,
             textblob_subjectivity := tbScores.2,
             vader_compound := vader_compound,
             combined_polarity := combined.1 },
       [cleaned_text, cleaned_text])

/-- The single-text handler's response (first component of the instrumented
pipeline). -/
def analyze_sentiment (tb : List Char → ℚ × ℚ) (vd : List Char → ℚ)
    (text : List Char) : AnalyzeResponse :=
  (analyze_sentiment_core tb vd text).1

/-- One slot of the batch results array: a `SentimentResult` or an inline
error record echoing the offending item. -/
inductive BatchItem where
  | ok (result : SentimentResult)
  | itemError (text : List Char) (error : String)
deriving DecidableEq

/-- Outcome of the batch handler after JSON decoding: a 200 with the results
array, or a 400 with an error message. -/
inductive BatchResponse where
  | ok (results : List BatchItem)
  | clientError (msg : String)
deriving DecidableEq

/-- Embedding of one iteration of the batch loop, senti.py lines 181-222,
instrumented with the cleaned strings handed to the analyzers. -/
def processItem_core (tb : List Char → ℚ × ℚ) (vd : List Char → ℚ)
    (text : PyVal) : BatchItem × List (List Char) :=
  match text with
  | .str s =>
    if s = [] ∨ (pyStrip s).length = 0 then
      (.itemError s "Text cannot be empty", [])
    else if s.length > 1000 then
      (.itemError s "Text is too long. Maximum length is 1000 characters.", [])
    else
      let cleaned_text := clean_text s
      if cleaned_text = [] then
        (.itemError s "Text is empty after cleaning", [])
      else
        let tbScores := tb cleaned_text
        let vader_compound := vd cleaned_text
        let combined := classify tbScores.1 vader_compound
        (.ok { original_text := s, cleaned_text := cleaned_text,
               sentiment := combined.2, textblob_polarity := tbScores.1,
               textblob_subjectivity := tbScores.2,
               vader_compound := vader_compound,
               combined_polarity := combined.1 },
         [cleaned_text, cleaned_text])
  | v => (.itemError (pyStr v) "Text must be a string", [])

/-- The batch slot produced for one item. -/
def processItem (tb : List Char → ℚ × ℚ) (vd : List Char → ℚ)
    (text : PyVal) : BatchItem :=
  (processItem_core tb vd text).1

/-- Embedding of the `for text in texts` loop of senti.py lines 180-222:
one appended slot per item, in order, collecting the analyzer calls. -/
def batchLoop (tb : List Char → ℚ × ℚ) (vd : List Char → ℚ) :
    List PyVal → List BatchItem × List (List Char)
  | [] => ([], [])
  | t :: ts =>
    ((processItem_core tb vd t).1 :: (batchLoop tb vd ts).1,
     (processItem_core tb vd t).2 ++ (batchLoop tb vd ts).2)

/-- Embedding of the batch pipeline, senti.py lines 167-225, starting from
the extracted `texts` value: the `isinstance(texts, list)` check, the 10-item
cap, then the per-item loop.  The second component records every cleaned
string handed to an analyzer. -/
def analyze_sentiment_batch_core (tb : List Char → ℚ × ℚ) (vd : List Char → ℚ)
    (texts : PyVal) : BatchResponse × List (List Char) :=
  match texts with
  | .list xs =>
    if xs.length > 10 then
      (.clientError "Too many texts. Maximum batch size is 10.", [])
    else
      ((.ok (batchLoop tb vd xs).1), (batchLoop tb vd xs).2)
  | _ => (.clientError "\"texts\" must be a list of strings.", [])

/-- The batch handler's response (first component of the instrumented
pipeline). -/
def analyze_sentiment_batch (tb : List Char → ℚ × ℚ) (vd : List Char → ℚ)
    (texts : PyVal) : BatchResponse :=
  (analyze_sentiment_batch_core tb vd texts).1

/-- Trivial stand-in analyzer used to instantiate theorems at concrete
inputs. -/
def tbZero : List Char → ℚ × ℚ := fun _ => (0, 0)

/-- Trivial stand-in VADER score used to instantiate theorems at concrete
inputs. -/
def vdZero : List Char → ℚ := fun _ => 0

/-- Tokens as produced by `splitWs`: nonempty and whitespace-free. -/
def GoodToks (ts : List (List Char)) : Prop :=
  ∀ t ∈ ts, t ≠ [] ∧ ∀ c ∈ t, isSpaceChar c = false

/-- Tokens of cleaned text: nonempty and made of word characters only. -/
def WordToks (ts : List (List Char)) : Prop :=
  ∀ t ∈ ts, t ≠ [] ∧ ∀ c ∈ t, isWordChar c = true

/-! ### Helper lemmas about the cleaning pipeline -/

theorem word_not_space {c : Char} (h : isWordChar c = true) : isSpaceChar c = false := by
  cases hsp : isSpaceChar c
  · rfl
  · exfalso
    simp only [isSpaceChar, Bool.or_eq_true, decide_eq_true_eq] at hsp
    rcases hsp with ((((h1 | h1) | h1) | h1) | h1) | h1 <;>
      subst h1 <;> exact absurd h (by decide)

theorem removeUrlsGo_id : ∀ (fuel : Nat) (l : List Char), noUrlB l = true →
    removeUrlsGo fuel l = l := by
  intro fuel
  induction fuel with
  | zero => intro l _; cases l <;> rfl
  | succ fuel ih =>
    intro l h
    cases l with
    | nil => rfl
    | cons c rest =>
      simp only [noUrlB, Bool.and_eq_true, Option.isNone_iff_eq_none] at h
      simp only [removeUrlsGo, h.1]
      exact congrArg (c :: ·) (ih rest h.2)

theorem removeMentionsGo_id : ∀ (fuel : Nat) (l : List Char),
    (∀ c ∈ l, c ≠ '@' ∧ c ≠ '#') → removeMentionsGo fuel l = l := by
  intro fuel
  induction fuel with
  | zero => intro l _; cases l <;> rfl
  | succ fuel ih =>
    intro l h
    cases l with
    | nil => rfl
    | cons c rest =>
      have hc := h c (List.mem_cons_self c rest)
      have hm : matchMentionAt (c :: rest) = none := by
        simp [matchMentionAt, hc.1, hc.2]
      simp only [removeMentionsGo, hm]
      exact congrArg (c :: ·) (ih rest fun d hd => h d (List.mem_cons_of_mem c hd))

theorem splitWsAux_nil (acc : List Char) :
    splitWsAux [] acc = if acc.isEmpty then [] else [acc.reverse] := rfl

theorem splitWsAux_cons_space {c : Char} (rest acc : List Char)
    (hsp : isSpaceChar c = true) :
    splitWsAux (c :: rest) acc =
      (if acc.isEmpty then [] else [acc.reverse]) ++ splitWsAux rest [] := by
  cases acc <;> simp [splitWsAux, hsp]

theorem splitWsAux_cons_word {c : Char} (rest acc : List Char)
    (hsp : isSpaceChar c = false) :
    splitWsAux (c :: rest) acc = splitWsAux rest (c :: acc) := by
  simp [splitWsAux, hsp]

theorem splitWsAux_tokens : ∀ (l acc : List Char),
    (∀ c ∈ acc, isSpaceChar c = false) →
    ∀ t ∈ splitWsAux l acc, t ≠ [] ∧ ∀ c ∈ t, isSpaceChar c = false := by
  intro l
  induction l with
  | nil =>
    intro acc hacc t ht
    rw [splitWsAux_nil] at ht
    cases acc with
    | nil => simp at ht
    | cons a as =>
      simp at ht
      subst ht
      exact ⟨by simp, fun c hc => hacc c (by rw [← List.reverse_cons] at hc; exact List.mem_reverse.mp hc)⟩
  | cons c rest ih =>
    intro acc hacc t ht
    cases hsp : isSpaceChar c with
    | true =>
      rw [splitWsAux_cons_space rest acc hsp] at ht
      rcases List.mem_append.mp ht with ht | ht
      · cases acc with
        | nil => simp at ht
        | cons a as =>
          simp at ht
          subst ht
          exact ⟨by simp, fun d hd => hacc d (by rw [← List.reverse_cons] at hd; exact List.mem_reverse.mp hd)⟩
      · exact ih [] (by simp) t ht
    | false =>
      rw [splitWsAux_cons_word rest acc hsp] at ht
      refine ih (c :: acc) ?_ t ht
      intro d hd
      rcases List.mem_cons.mp hd with rfl | hd
      · exact hsp
      · exact hacc d hd

theorem splitWsAux_chars : ∀ (l acc : List Char) (S : Char → Prop),
    (∀ c ∈ l, S c) → (∀ c ∈ acc, S c) →
    ∀ t ∈ splitWsAux l acc, ∀ c ∈ t, S c := by
  intro l
  induction l with
  | nil =>
    intro acc S _ hacc t ht d hd
    rw [splitWsAux_nil] at ht
    cases acc with
    | nil => simp at ht
    | cons a as =>
      simp at ht
      subst ht
      exact hacc d (by rw [← List.reverse_cons] at hd; exact List.mem_reverse.mp hd)
  | cons c rest ih =>
    intro acc S hl hacc t ht d hd
    have hl' : ∀ e ∈ rest, S e := fun e he => hl e (List.mem_cons_of_mem c he)
    cases hsp : isSpaceChar c with
    | true =>
      rw [splitWsAux_cons_space rest acc hsp] at ht
      rcases List.mem_append.mp ht with ht | ht
      · cases acc with
        | nil => simp at ht
        | cons a as =>
          simp at ht
          subst ht
          exact hacc d (by rw [← List.reverse_cons] at hd; exact List.mem_reverse.mp hd)
      · exact ih [] S hl' (by simp) t ht d hd
    | false =>
      rw [splitWsAux_cons_word rest acc hsp] at ht
      refine ih (c :: acc) S hl' ?_ t ht d hd
      intro e he
      rcases List.mem_cons.mp he with rfl | he
      · exact hl e (List.mem_cons_self e rest)
      · exact hacc e he

theorem splitWs_goodToks (l : List Char) : GoodToks (splitWs l) :=
  fun t ht => splitWsAux_tokens l [] (by simp) t ht

theorem splitWsAux_append_token : ∀ (t : List Char), (∀ c ∈ t, isSpaceChar c = false) →
    ∀ (r acc : List Char), splitWsAux (t ++ r) acc = splitWsAux r (t.reverse ++ acc) := by
  intro t
  induction t with
  | nil => intro _ r acc; simp
  | cons c t' ih =>
    intro h r acc
    have hc : isSpaceChar c = false := h c (List.mem_cons_self c t')
    rw [List.cons_append, splitWsAux_cons_word _ _ hc,
      ih (fun d hd => h d (List.mem_cons_of_mem c hd)) r (c :: acc)]
    simp

theorem goodToks_of_wordToks {ts : List (List Char)} (h : WordToks ts) : GoodToks ts :=
  fun t ht => ⟨(h t ht).1, fun c hc => word_not_space ((h t ht).2 c hc)⟩

theorem splitWs_joinSp : ∀ (ts : List (List Char)), GoodToks ts →
    splitWs (joinSp ts) = ts := by
  intro ts
  induction ts with
  | nil => intro _; rfl
  | cons t ts' ih =>
    intro h
    have ht := h t (List.mem_cons_self t ts')
    have htok : ∀ c ∈ t, isSpaceChar c = false := ht.2
    cases ts' with
    | nil =>
      show splitWsAux (joinSp [t]) [] = [t]
      have : joinSp [t] = t ++ [] := by simp [joinSp]
      rw [this, splitWsAux_append_token t htok [] [], splitWsAux_nil]
      have : (t.reverse ++ []).isEmpty = false := by
        simp [List.isEmpty_iff, ht.1]
      rw [this]
      simp
    | cons t' ts'' =>
      show splitWsAux (joinSp (t :: t' :: ts'')) [] = t :: t' :: ts''
      have hj : joinSp (t :: t' :: ts'') = t ++ ' ' :: joinSp (t' :: ts'') := rfl
      rw [hj, splitWsAux_append_token t htok _ [],
        splitWsAux_cons_space _ _ (by decide)]
      have hne : (t.reverse ++ []).isEmpty = false := by
        simp [List.isEmpty_iff, ht.1]
      rw [hne]
      have hih := ih (fun u hu => h u (List.mem_cons_of_mem t hu))
      simp only [splitWs] at hih
      simp [hih]

theorem joinSp_concat : ∀ (us : List (List Char)) (v : List Char), us ≠ [] →
    joinSp (us ++ [v]) = joinSp us ++ ' ' :: v := by
  intro us
  induction us with
  | nil => intro v h; exact absurd rfl h
  | cons u us' ih =>
    intro v _
    cases us' with
    | nil => rfl
    | cons u' us'' =>
      have h1 : joinSp ((u :: u' :: us'') ++ [v]) =
          u ++ ' ' :: joinSp ((u' :: us'') ++ [v]) := rfl
      rw [h1, ih v (by simp)]
      simp [joinSp]

theorem joinSp_reverse : ∀ (ts : List (List Char)),
    (joinSp ts).reverse = joinSp ((ts.map List.reverse).reverse) := by
  intro ts
  induction ts with
  | nil => rfl
  | cons t ts' ih =>
    cases ts' with
    | nil => simp [joinSp]
    | cons t' ts'' =>
      have h1 : joinSp (t :: t' :: ts'') = t ++ ' ' :: joinSp (t' :: ts'') := rfl
      have hne : ((t' :: ts'').map List.reverse).reverse ≠ [] := by simp
      rw [h1]
      rw [List.reverse_append, List.reverse_cons]
      rw [List.map_cons, List.reverse_cons]
      rw [joinSp_concat _ _ hne, ← ih]
      simp

theorem joinSp_head : ∀ (ts : List (List Char)), GoodToks ts →
    joinSp ts = [] ∨ ∃ c r, joinSp ts = c :: r ∧ isSpaceChar c = false := by
  intro ts h
  cases ts with
  | nil => exact Or.inl rfl
  | cons t ts' =>
    have ht := h t (List.mem_cons_self t ts')
    obtain ⟨c, r0, rfl⟩ := List.exists_cons_of_ne_nil ht.1
    have hc : isSpaceChar c = false := ht.2 c (List.mem_cons_self c r0)
    cases ts' with
    | nil => exact Or.inr ⟨c, r0, rfl, hc⟩
    | cons t' ts'' =>
      exact Or.inr ⟨c, r0 ++ ' ' :: joinSp (t' :: ts''), rfl, hc⟩

theorem goodToks_reverse {ts : List (List Char)} (h : GoodToks ts) :
    GoodToks ((ts.map List.reverse).reverse) := by
  intro t ht
  rw [List.mem_reverse] at ht
  rcases List.mem_map.mp ht with ⟨u, hu, rfl⟩
  refine ⟨by simp [(h u hu).1], fun c hc => (h u hu).2 c (List.mem_reverse.mp hc)⟩

theorem dropWhile_eq_self_of_head (l : List Char)
    (h : l = [] ∨ ∃ c r, l = c :: r ∧ isSpaceChar c = false) :
    l.dropWhile isSpaceChar = l := by
  rcases h with rfl | ⟨c, r, rfl, hc⟩
  · rfl
  · simp [List.dropWhile, hc]

theorem pyStrip_joinSp (ts : List (List Char)) (h : GoodToks ts) :
    pyStrip (joinSp ts) = joinSp ts := by
  unfold pyStrip
  rw [dropWhile_eq_self_of_head _ (joinSp_head ts h)]
  rw [joinSp_reverse ts,
    dropWhile_eq_self_of_head _ (joinSp_head _ (goodToks_reverse h)),
    ← joinSp_reverse ts, List.reverse_reverse]

theorem mem_joinSp : ∀ (ts : List (List Char)) (c : Char), c ∈ joinSp ts →
    c = ' ' ∨ ∃ t ∈ ts, c ∈ t := by
  intro ts
  induction ts with
  | nil => intro c hc; simp [joinSp] at hc
  | cons t ts' ih =>
    intro c hc
    cases ts' with
    | nil =>
      simp only [joinSp] at hc
      exact Or.inr ⟨t, List.mem_cons_self t [], hc⟩
    | cons t' ts'' =>
      have h1 : joinSp (t :: t' :: ts'') = t ++ ' ' :: joinSp (t' :: ts'') := rfl
      rw [h1] at hc
      rcases List.mem_append.mp hc with hc | hc
      · exact Or.inr ⟨t, List.mem_cons_self t _, hc⟩
      · rcases List.mem_cons.mp hc with rfl | hc
        · exact Or.inl rfl
        · rcases ih c hc with h | ⟨u, hu, hcu⟩
          · exact Or.inl h
          · exact Or.inr ⟨u, List.mem_cons_of_mem t hu, hcu⟩

theorem clean_text_eq (text : List Char) :
    clean_text text =
      pyStrip (joinSp (splitWs (List.filter keepChar (removeMentions (removeUrls text))))) :=
  rfl

theorem wordToks_splitWs_filter (l : List Char) :
    WordToks (splitWs (List.filter keepChar l)) := by
  intro t ht
  have hg := splitWs_goodToks (List.filter keepChar l) t ht
  refine ⟨hg.1, fun c hc => ?_⟩
  have hme : c ∈ List.filter keepChar l :=
    splitWsAux_chars _ [] (fun d => d ∈ List.filter keepChar l)
      (fun d hd => hd) (by simp) t ht c hc
  have hkeep : keepChar c = true := (List.mem_filter.mp hme).2
  have hsp := hg.2 c hc
  have hkeep' : isWordChar c = true ∨ isSpaceChar c = true := by
    simpa [keepChar] using hkeep
  rcases hkeep' with hw | hs
  · exact hw
  · rw [hs] at hsp; exact absurd hsp (by simp)

theorem clean_text_shape (x : List Char) :
    ∃ ts, WordToks ts ∧ clean_text x = joinSp ts := by
  refine ⟨splitWs (List.filter keepChar (removeMentions (removeUrls x))),
    wordToks_splitWs_filter _, ?_⟩
  rw [clean_text_eq]
  exact pyStrip_joinSp _ (goodToks_of_wordToks (wordToks_splitWs_filter _))

theorem clean_text_chars (x : List Char) :
    ∀ c ∈ clean_text x, isWordChar c = true ∨ c = ' ' := by
  obtain ⟨ts, hw, heq⟩ := clean_text_shape x
  rw [heq]
  intro c hc
  rcases mem_joinSp ts c hc with h | ⟨t, ht, hct⟩
  · exact Or.inr h
  · exact Or.inl ((hw t ht).2 c hct)

/-! ### Claim theorems for the text cleaner (C2, C7) -/

/-- C2 counterexample: `clean_text` is not idempotent.  Cleaning `"w.wwx"`
removes the dot (punctuation) and yields `"wwwx"`, which a second cleaning
pass deletes entirely because it now matches the URL pattern `www\S+`. -/
theorem clean_text_not_idempotent :
    clean_text (clean_text ['w', '.', 'w', 'w', 'x']) ≠
      clean_text ['w', '.', 'w', 'w', 'x'] := by
  decide

/-- C2 (amended): `clean_text (clean_text x) = clean_text x` for every string
`x` whose cleaned form contains no occurrence of the URL pattern
`http\S+|www\S+|https\S+` (punctuation removal can create such an occurrence,
which breaks unconditional idempotence). -/
theorem clean_text_idempotent_of_noUrl (x : List Char)
    (h : noUrlB (clean_text x) = true) :
    clean_text (clean_text x) = clean_text x := by
  obtain ⟨ts, hw, heq⟩ := clean_text_shape x
  have hgood := goodToks_of_wordToks hw
  have hchars := clean_text_chars x
  have h1 : removeUrls (clean_text x) = clean_text x := removeUrlsGo_id _ _ h
  have h2 : removeMentions (clean_text x) = clean_text x := by
    refine removeMentionsGo_id _ _ ?_
    intro c hc
    rcases hchars c hc with hwd | rfl
    · constructor
      · intro hceq; subst hceq; exact absurd hwd (by decide)
      · intro hceq; subst hceq; exact absurd hwd (by decide)
    · exact ⟨by decide, by decide⟩
  have h3 : List.filter keepChar (clean_text x) = clean_text x := by
    rw [List.filter_eq_self]
    intro c hc
    rcases hchars c hc with hwd | rfl
    · simp [keepChar, hwd]
    · decide
  rw [clean_text_eq (clean_text x), h1, h2, h3, heq, splitWs_joinSp ts hgood,
    pyStrip_joinSp ts hgood]

/-- C2 witness: a concrete input whose cleaned form is URL-free, so the
amended idempotence theorem applies. -/
theorem clean_text_idempotent_of_noUrl_witness :
    noUrlB (clean_text ['a', 'b', ' ', 'c', '!']) = true ∧
    clean_text (clean_text ['a', 'b', ' ', 'c', '!']) =
      clean_text ['a', 'b', ' ', 'c', '!'] :=
  ⟨by decide, clean_text_idempotent_of_noUrl ['a', 'b', ' ', 'c', '!'] (by decide)⟩

/-- C7 counterexample: the cleaner's output can contain a URL-like substring.
Cleaning `"w.wwx"` yields `"wwwx"`, which matches the URL pattern
`www\S+` at its first position. -/
theorem clean_text_url_in_output :
    clean_text ['w', '.', 'w', 'w', 'x'] = ['w', 'w', 'w', 'x'] ∧
    matchUrlAt (clean_text ['w', '.', 'w', 'w', 'x']) ≠ none := by
  decide

/-- C7 (amended): the cleaner's output consists of nonempty words of word
characters joined by single spaces (hence no leading/trailing whitespace);
every character is a word character or a single space, every character is in
the kept class (no punctuation/symbol characters), and `@`/`#` never occur;
the example `"@user #hashtag http://x.com !!!"` cleans to the empty string.
The output may however contain URL-like substrings created by punctuation
removal (see the counterexample). -/
theorem clean_text_output_shape (x : List Char) :
    (∃ ts, WordToks ts ∧ clean_text x = joinSp ts) ∧
    (∀ c ∈ clean_text x, isWordChar c = true ∨ c = ' ') ∧
    (∀ c ∈ clean_text x, keepChar c = true) ∧
    (∀ c ∈ clean_text x, c ≠ '@' ∧ c ≠ '#') ∧
    clean_text ['@', 'u', 's', 'e', 'r', ' ', '#', 'h', 'a', 's', 'h', 't', 'a', 'g', ' ',
      'h', 't', 't', 'p', ':', '/', '/', 'x', '.', 'c', 'o', 'm', ' ', '!', '!', '!'] = [] := by
  refine ⟨clean_text_shape x, clean_text_chars x, ?_, ?_, by decide⟩
  · intro c hc
    rcases clean_text_chars x c hc with hw | rfl
    · simp [keepChar, hw]
    · decide
  · intro c hc
    rcases clean_text_chars x c hc with hw | rfl
    · constructor
      · intro hceq; subst hceq; exact absurd hw (by decide)
      · intro hceq; subst hceq; exact absurd hw (by decide)
    · exact ⟨by decide, by decide⟩

/-- C7 witness: the shape theorem instantiated on a concrete input with a
concrete character of its output. -/
theorem clean_text_output_shape_witness :
    (isWordChar 'a' = true ∨ 'a' = ' ') ∧ keepChar 'a' = true ∧
    ('a' ≠ '@' ∧ 'a' ≠ '#') :=
  ⟨(clean_text_output_shape ['a', '!', 'b']).2.1 'a' (by decide),
   (clean_text_output_shape ['a', '!', 'b']).2.2.1 'a' (by decide),
   (clean_text_output_shape ['a', '!', 'b']).2.2.2.1 'a' (by decide)⟩

/-! ### Claim theorem for the combiner and classifier (C1) -/

/-- C1: the classifier computes `combined = (polarity + compound) / 2` and
returns "positive" exactly when `combined > 0.1`, "negative" exactly when
`combined < -0.1`, and "neutral" otherwise; both boundaries are exclusive
(combined = 0.1 and combined = -0.1 give "neutral", 0.15 gives "positive",
-0.5 gives "negative"). -/
theorem classify_spec (polarity compound : ℚ) :
    (classify polarity compound).1 = (polarity + compound) / 2 ∧
    ((classify polarity compound).2 = "positive" ↔ (polarity + compound) / 2 > 1 / 10) ∧
    ((classify polarity compound).2 = "negative" ↔ (polarity + compound) / 2 < -(1 / 10)) ∧
    ((classify polarity compound).2 = "neutral" ↔
      -(1 / 10) ≤ (polarity + compound) / 2 ∧ (polarity + compound) / 2 ≤ 1 / 10) ∧
    (classify (1 / 10) (1 / 10)).2 = "neutral" ∧
    (classify (-(1 / 10)) (-(1 / 10))).2 = "neutral" ∧
    (classify (3 / 20) (3 / 20)).2 = "positive" ∧
    (classify (-(1 / 2)) (-(1 / 2))).2 = "negative" := by
  refine ⟨rfl, ?_, ?_, ?_, ?_, ?_, ?_, ?_⟩
  · simp only [classify]
    split_ifs with h1 h2
    · exact iff_of_true rfl h1
    · exact iff_of_false (by decide) h1
    · exact iff_of_false (by decide) h1
  · simp only [classify]
    split_ifs with h1 h2
    · exact iff_of_false (by decide) (fun hc => by linarith)
    · exact iff_of_true rfl h2
    · exact iff_of_false (by decide) h2
  · simp only [classify]
    split_ifs with h1 h2
    · refine iff_of_false (by decide) ?_
      intro hc
      exact absurd h1 (not_lt.mpr hc.2)
    · refine iff_of_false (by decide) ?_
      intro hc
      exact absurd h2 (not_lt.mpr hc.1)
    · exact iff_of_true rfl ⟨by linarith [not_lt.mp h2], by linarith [not_lt.mp h1]⟩
  · simp only [classify]
    norm_num
  · simp only [classify]
    norm_num
  · simp only [classify]
    norm_num
  · simp only [classify]
    norm_num

/-! ### Claim theorem for the cleaner's type check (C9) -/

/-- C9: `clean_text` (as called on a decoded JSON value) raises the
`ValueError` exactly on non-string arguments: every string argument returns
normally with the cleaned string, and every non-string argument produces the
error. -/
theorem clean_text_py_spec :
    (∀ s : List Char, clean_text_py (.str s) = .ok (clean_text s)) ∧
    (∀ v : PyVal, (∀ s, v ≠ .str s) →
      clean_text_py v = .error "Input text must be a string") := by
  constructor
  · intro s; rfl
  · intro v hv
    cases v with
    | str s => exact absurd rfl (hv s)
    | int n => rfl
    | bool b => rfl
    | none => rfl
    | list xs => rfl

/-- C9 witness: a concrete string succeeds, a concrete integer fails. -/
theorem clean_text_py_spec_witness :
    clean_text_py (.str ['a']) = .ok (clean_text ['a']) ∧
    clean_text_py (.int 3) = .error "Input text must be a string" :=
  ⟨clean_text_py_spec.1 ['a'],
   clean_text_py_spec.2 (.int 3) (fun s h => PyVal.noConfusion h)⟩

/-! ### Claim theorem for the combined-polarity range (C10) -/

/-- C10: whenever both analyzer scores lie in [-1, 1], the combined polarity
lies in [-1, 1]; moreover the `combined_polarity` stored in a successful
`SentimentResult` (by either pipeline) is exactly the classifier's combined
value at the analyzer scores of the cleaned text. -/
theorem combined_polarity_range :
    (∀ polarity compound : ℚ, -1 ≤ polarity → polarity ≤ 1 →
      -1 ≤ compound → compound ≤ 1 →
      -1 ≤ (classify polarity compound).1 ∧ (classify polarity compound).1 ≤ 1) ∧
    (∀ (tb : List Char → ℚ × ℚ) (vd : List Char → ℚ) (text : List Char)
      (r : SentimentResult), analyze_sentiment tb vd text = .ok r →
      r.combined_polarity = (classify (tb r.cleaned_text).1 (vd r.cleaned_text)).1) ∧
    (∀ (tb : List Char → ℚ × ℚ) (vd : List Char → ℚ) (v : PyVal)
      (r : SentimentResult), processItem tb vd v = .ok r →
      r.combined_polarity = (classify (tb r.cleaned_text).1 (vd r.cleaned_text)).1) := by
  refine ⟨?_, ?_, ?_⟩
  · intro p c hp1 hp2 hc1 hc2
    constructor
    · show -1 ≤ (p + c) / 2
      linarith
    · show (p + c) / 2 ≤ 1
      linarith
  · intro tb vd text r h
    simp only [analyze_sentiment, analyze_sentiment_core] at h
    split_ifs at h with h1 h2 h3 <;> cases h <;> rfl
  · intro tb vd v r h
    cases v with
    | str s =>
      simp only [processItem, processItem_core] at h
      split_ifs at h with h1 h2 h3 <;> cases h <;> rfl
    | int n => cases h
    | bool b => cases h
    | none => cases h
    | list xs => cases h

/-- C10 witness: the range bound at concrete in-range scores, and the stored
combined polarity of a concrete successful analysis. -/
theorem combined_polarity_range_witness :
    (-1 ≤ (classify (0 : ℚ) 0).1 ∧ (classify (0 : ℚ) 0).1 ≤ 1) ∧
    ({ original_text := ['h', 'i'], cleaned_text := ['h', 'i'],
       sentiment := "neutral", textblob_polarity := 0,
       textblob_subjectivity := 0, vader_compound := 0,
       combined_polarity := 0 } : SentimentResult).combined_polarity =
      (classify (tbZero ['h', 'i']).1 (vdZero ['h', 'i'])).1 := by
  constructor
  · exact combined_polarity_range.1 0 0 (by norm_num) (by norm_num)
      (by norm_num) (by norm_num)
  · refine combined_polarity_range.2.1 tbZero vdZero ['h', 'i'] _ ?_
    have h : clean_text ['h', 'i'] = ['h', 'i'] := by decide
    simp [analyze_sentiment, analyze_sentiment_core, h, classify, tbZero, vdZero]
    norm_num
    decide

/-! ### Helper lemmas about the batch loop -/

theorem batchLoop_fst (tb : List Char → ℚ × ℚ) (vd : List Char → ℚ) :
    ∀ xs : List PyVal, (batchLoop tb vd xs).1 = xs.map (processItem tb vd) := by
  intro xs
  induction xs with
  | nil => rfl
  | cons t ts ih => simp [batchLoop, ih, processItem]

theorem processItem_core_calls (tb : List Char → ℚ × ℚ) (vd : List Char → ℚ)
    (v : PyVal) : ∀ s ∈ (processItem_core tb vd v).2, s ≠ [] := by
  intro s hs
  cases v with
  | str t =>
    simp only [processItem_core] at hs
    split_ifs at hs with h1 h2 h3
    · simp at hs
    · simp at hs
    · simp at hs
    · rcases List.mem_cons.mp hs with rfl | hs2
      · exact h3
      · rcases List.mem_cons.mp hs2 with rfl | h
        · exact h3
        · simp at h
  | int n => simp [processItem_core] at hs
  | bool b => simp [processItem_core] at hs
  | none => simp [processItem_core] at hs
  | list l => simp [processItem_core] at hs

theorem batchLoop_calls (tb : List Char → ℚ × ℚ) (vd : List Char → ℚ) :
    ∀ (xs : List PyVal) (s : List Char), s ∈ (batchLoop tb vd xs).2 → s ≠ [] := by
  intro xs
  induction xs with
  | nil => intro s hs; simp [batchLoop] at hs
  | cons t ts ih =>
    intro s hs
    simp only [batchLoop] at hs
    rcases List.mem_append.mp hs with hs | hs
    · exact processItem_core_calls tb vd t s hs
    · exact ih s hs

theorem processItem_nonstr (tb : List Char → ℚ × ℚ) (vd : List Char → ℚ)
    (v : PyVal) (hv : ∀ s, v ≠ .str s) :
    processItem tb vd v = .itemError (pyStr v) "Text must be a string" := by
  cases v with
  | str s => exact absurd rfl (hv s)
  | int n => rfl
  | bool b => rfl
  | none => rfl
  | list l => rfl

theorem processItem_empty (tb : List Char → ℚ × ℚ) (vd : List Char → ℚ)
    (s : List Char) (h : s = [] ∨ (pyStrip s).length = 0) :
    processItem tb vd (.str s) = .itemError s "Text cannot be empty" := by
  simp only [processItem, processItem_core]
  rw [if_pos h]

theorem processItem_long (tb : List Char → ℚ × ℚ) (vd : List Char → ℚ)
    (s : List Char) (h1 : ¬(s = [] ∨ (pyStrip s).length = 0))
    (h2 : s.length > 1000) :
    processItem tb vd (.str s) =
      .itemError s "Text is too long. Maximum length is 1000 characters." := by
  simp only [processItem, processItem_core]
  rw [if_neg h1, if_pos h2]

theorem processItem_cleanEmpty (tb : List Char → ℚ × ℚ) (vd : List Char → ℚ)
    (s : List Char) (h1 : ¬(s = [] ∨ (pyStrip s).length = 0))
    (h2 : ¬s.length > 1000) (h3 : clean_text s = []) :
    processItem tb vd (.str s) = .itemError s "Text is empty after cleaning" := by
  simp only [processItem, processItem_core]
  rw [if_neg h1, if_neg h2, if_pos h3]

/-! ### Claim theorems for the batch orchestrator (C3, C4, C5) -/

/-- C3: on a valid batch shape (a list of at most 10 items) the orchestrator
returns one output slot per input item, and the i-th slot is the result of
processing the i-th input. -/
theorem batch_output_order (tb : List Char → ℚ × ℚ) (vd : List Char → ℚ)
    (xs : List PyVal) (hlen : xs.length ≤ 10) :
    ∃ rs, analyze_sentiment_batch tb vd (.list xs) = .ok rs ∧
      rs.length = xs.length ∧
      ∀ (i : Nat) (h1 : i < rs.length) (h2 : i < xs.length),
        rs.get ⟨i, h1⟩ = processItem tb vd (xs.get ⟨i, h2⟩) := by
  refine ⟨xs.map (processItem tb vd), ?_, by simp, ?_⟩
  · simp only [analyze_sentiment_batch, analyze_sentiment_batch_core]
    rw [if_neg (by omega)]
    simp [batchLoop_fst]
  · intro i h1 h2
    simp [List.get_eq_getElem, List.getElem_map]

/-- C3 witness: a concrete two-item batch, with the response and the slot
correspondence extracted from the order theorem. -/
theorem batch_output_order_witness :
    analyze_sentiment_batch tbZero vdZero (.list [.int 5, .str []]) =
      .ok [processItem tbZero vdZero (.int 5), processItem tbZero vdZero (.str [])] := by
  obtain ⟨rs, hresp, hlen, hget⟩ :=
    batch_output_order tbZero vdZero [.int 5, .str []] (by decide)
  rw [hresp]
  refine congrArg BatchResponse.ok (List.ext_get (by simp [hlen]) ?_)
  intro n hn1 hn2
  have hn : n < 2 := by rw [hlen] at hn1; simpa using hn1
  interval_cases n
  · simpa using hget 0 hn1 (by decide)
  · simpa using hget 1 hn1 (by decide)

/-- C4: within a valid batch every slot is computed from its own item alone;
an item that is not a string, or empty/whitespace-only, or longer than 1000
characters, or that cleans to the empty string, yields an error record
echoing the offending value, and the remaining slots are still the results
of processing their own items. -/
theorem batch_item_isolation (tb : List Char → ℚ × ℚ) (vd : List Char → ℚ)
    (xs : List PyVal) (hlen : xs.length ≤ 10) :
    ∃ rs, analyze_sentiment_batch tb vd (.list xs) = .ok rs ∧
      rs.length = xs.length ∧
      ∀ (i : Nat) (h1 : i < rs.length) (h2 : i < xs.length),
        rs.get ⟨i, h1⟩ = processItem tb vd (xs.get ⟨i, h2⟩) ∧
        ((∀ s, xs.get ⟨i, h2⟩ ≠ .str s) →
          rs.get ⟨i, h1⟩ = .itemError (pyStr (xs.get ⟨i, h2⟩)) "Text must be a string") ∧
        (∀ s, xs.get ⟨i, h2⟩ = .str s → s = [] ∨ (pyStrip s).length = 0 →
          rs.get ⟨i, h1⟩ = .itemError s "Text cannot be empty") ∧
        (∀ s, xs.get ⟨i, h2⟩ = .str s → ¬(s = [] ∨ (pyStrip s).length = 0) →
          s.length > 1000 →
          rs.get ⟨i, h1⟩ =
            .itemError s "Text is too long. Maximum length is 1000 characters.") ∧
        (∀ s, xs.get ⟨i, h2⟩ = .str s → ¬(s = [] ∨ (pyStrip s).length = 0) →
          ¬s.length > 1000 → clean_text s = [] →
          rs.get ⟨i, h1⟩ = .itemError s "Text is empty after cleaning") := by
  refine ⟨xs.map (processItem tb vd), ?_, by simp, ?_⟩
  · simp only [analyze_sentiment_batch, analyze_sentiment_batch_core]
    rw [if_neg (by omega)]
    simp [batchLoop_fst]
  · intro i h1 h2
    have hget : (xs.map (processItem tb vd)).get ⟨i, h1⟩ =
        processItem tb vd (xs.get ⟨i, h2⟩) := by
      simp [List.get_eq_getElem, List.getElem_map]
    refine ⟨hget, ?_, ?_, ?_, ?_⟩
    · intro hv
      rw [hget, processItem_nonstr tb vd _ hv]
    · intro s hs hemp
      rw [hget, hs, processItem_empty tb vd s hemp]
    · intro s hs hne hlong
      rw [hget, hs, processItem_long tb vd s hne hlong]
    · intro s hs hne hnl hcl
      rw [hget, hs, processItem_cleanEmpty tb vd s hne hnl hcl]

set_option maxRecDepth 100000 in
/-- C4 witness: a four-item batch hitting each per-item error case, with the
slots derived from the isolation theorem. -/
theorem batch_item_isolation_witness :
    analyze_sentiment_batch tbZero vdZero
        (.list [PyVal.int 5, PyVal.str [], PyVal.str (List.replicate 1001 'a'),
          PyVal.str ['!']]) =
      .ok [.itemError (pyStr (PyVal.int 5)) "Text must be a string",
           .itemError [] "Text cannot be empty",
           .itemError (List.replicate 1001 'a')
             "Text is too long. Maximum length is 1000 characters.",
           .itemError ['!'] "Text is empty after cleaning"] := by
  obtain ⟨rs, hresp, hlen, hget⟩ := batch_item_isolation tbZero vdZero
    [PyVal.int 5, PyVal.str [], PyVal.str (List.replicate 1001 'a'), PyVal.str ['!']]
    (by decide)
  rw [hresp]
  refine congrArg BatchResponse.ok (List.ext_get (by rw [hlen]; rfl) ?_)
  intro n hn1 hn2
  have hn : n < 4 := by rw [hlen] at hn1; exact hn1
  interval_cases n
  · exact (hget 0 hn1 (by decide)).2.1 (by intro s h; exact PyVal.noConfusion h)
  · exact (hget 1 hn1 (by decide)).2.2.1 [] rfl (Or.inl rfl)
  · exact (hget 2 hn1 (by decide)).2.2.2.1 (List.replicate 1001 'a') rfl
      (by decide) (by decide)
  · exact (hget 3 hn1 (by decide)).2.2.2.2 ['!'] rfl (by decide) (by decide)
      (by decide)

/-- C5: the batch call is rejected whole, before any item is processed, when
`texts` is not a list or has more than 10 items: the response is a client
error, no per-item slot exists, and the recorded analyzer-call list is
empty. -/
theorem batch_shape_rejection (tb : List Char → ℚ × ℚ) (vd : List Char → ℚ) :
    (∀ texts : PyVal, (∀ xs, texts ≠ .list xs) →
      analyze_sentiment_batch_core tb vd texts =
        (.clientError "\"texts\" must be a list of strings.", [])) ∧
    (∀ xs : List PyVal, xs.length > 10 →
      analyze_sentiment_batch_core tb vd (.list xs) =
        (.clientError "Too many texts. Maximum batch size is 10.", [])) := by
  constructor
  · intro texts h
    cases texts with
    | list xs => exact absurd rfl (h xs)
    | str s => rfl
    | int n => rfl
    | bool b => rfl
    | none => rfl
  · intro xs h
    simp only [analyze_sentiment_batch_core]
    rw [if_pos h]

/-- C5 witness: a non-list value and an 11-item batch, both rejected with no
analyzer calls. -/
theorem batch_shape_rejection_witness :
    analyze_sentiment_batch_core tbZero vdZero (.int 0) =
      (.clientError "\"texts\" must be a list of strings.", []) ∧
    analyze_sentiment_batch_core tbZero vdZero
        (.list (List.replicate 11 (.str ['a']))) =
      (.clientError "Too many texts. Maximum batch size is 10.", []) :=
  ⟨(batch_shape_rejection tbZero vdZero).1 (.int 0) (fun xs h => PyVal.noConfusion h),
   (batch_shape_rejection tbZero vdZero).2 (List.replicate 11 (.str ['a'])) (by decide)⟩

/-! ### Claim theorem for the no-empty-scoring safety property (C8) -/

/-- C8: in both pipelines the analyzers are invoked only after the cleaned
text is checked to be non-empty, so every string recorded as passed to the
scoring stage is non-empty. -/
theorem scoring_never_on_empty (tb : List Char → ℚ × ℚ) (vd : List Char → ℚ) :
    (∀ (text : List Char) (s : List Char),
      s ∈ (analyze_sentiment_core tb vd text).2 → s ≠ []) ∧
    (∀ (texts : PyVal) (s : List Char),
      s ∈ (analyze_sentiment_batch_core tb vd texts).2 → s ≠ []) := by
  constructor
  · intro text s hs
    simp only [analyze_sentiment_core] at hs
    split_ifs at hs with h1 h2 h3
    · simp at hs
    · simp at hs
    · simp at hs
    · rcases List.mem_cons.mp hs with rfl | hs2
      · exact h3
      · rcases List.mem_cons.mp hs2 with rfl | h
        · exact h3
        · simp at h
  · intro texts s hs
    cases texts with
    | list xs =>
      simp only [analyze_sentiment_batch_core] at hs
      split_ifs at hs with h
      · simp at hs
      · exact batchLoop_calls tb vd xs s hs
    | str t => simp [analyze_sentiment_batch_core] at hs
    | int n => simp [analyze_sentiment_batch_core] at hs
    | bool b => simp [analyze_sentiment_batch_core] at hs
    | none => simp [analyze_sentiment_batch_core] at hs

/-- C8 witness: a concrete analysis whose recorded analyzer input is the
non-empty cleaned text. -/
theorem scoring_never_on_empty_witness :
    ['h', 'i'] ∈ (analyze_sentiment_core tbZero vdZero ['h', 'i']).2 ∧
    (['h', 'i'] : List Char) ≠ [] :=
  ⟨by decide, (scoring_never_on_empty tbZero vdZero).1 ['h', 'i'] ['h', 'i'] (by decide)⟩

/-! ### Claim theorems for the single-text length validation (C6) -/

set_option maxRecDepth 100000 in
/-- C6 counterexample: a 1001-character text made of whitespace is rejected,
but with the earlier "Text cannot be empty." message, not the
"Text is too long..." message the claim requires for every 1001-character
text. -/
theorem analyze_1001_whitespace_not_too_long :
    (List.replicate 1001 ' ').length = 1001 ∧
    analyze_sentiment tbZero vdZero (List.replicate 1001 ' ') =
      .clientError "Text cannot be empty." ∧
    analyze_sentiment tbZero vdZero (List.replicate 1001 ' ') ≠
      .clientError "Text is too long. Maximum length is 1000 characters." := by
  refine ⟨by decide, by decide, by decide⟩

/-- C6 (amended): every 1001-character text is rejected as a client error;
when it has non-whitespace content the message is "Text is too long..."
(whitespace-only 1001-character texts are caught earlier by the emptiness
check); texts accepted by the endpoint have length between 1 and 1000. -/
theorem analyze_length_bounds (tb : List Char → ℚ × ℚ) (vd : List Char → ℚ)
    (text : List Char) :
    (text.length = 1001 → ∃ msg, analyze_sentiment tb vd text = .clientError msg) ∧
    (text.length = 1001 → (pyStrip text).length ≠ 0 →
      analyze_sentiment tb vd text =
        .clientError "Text is too long. Maximum length is 1000 characters.") ∧
    (∀ r, analyze_sentiment tb vd text = .ok r →
      1 ≤ text.length ∧ text.length ≤ 1000) := by
  refine ⟨?_, ?_, ?_⟩
  · intro hlen
    simp only [analyze_sentiment, analyze_sentiment_core]
    split_ifs with h1 h2 h3
    · exact ⟨"Text cannot be empty.", rfl⟩
    · exact ⟨"Text is too long. Maximum length is 1000 characters.", rfl⟩
    · exact absurd hlen (by omega)
    · exact absurd hlen (by omega)
  · intro hlen hstrip
    simp only [analyze_sentiment, analyze_sentiment_core]
    split_ifs with h1 h2 h3
    · exfalso
      rcases h1 with h1 | h1
      · rw [h1] at hlen; exact absurd hlen (by decide)
      · exact hstrip h1
    · rfl
    · exact absurd hlen (by omega)
    · exact absurd hlen (by omega)
  · intro r hr
    simp only [analyze_sentiment, analyze_sentiment_core] at hr
    split_ifs at hr with h1 h2 h3 <;> cases hr
    push_neg at h1
    have hp : 0 < text.length := List.length_pos.mpr h1.1
    omega

set_option maxRecDepth 100000 in
/-- C6 witness: a 1001-character non-whitespace text is rejected as too long,
and a concrete accepted text has length within the bounds. -/
theorem analyze_length_bounds_witness :
    (∃ msg, analyze_sentiment tbZero vdZero (List.replicate 1001 'a') =
      .clientError msg) ∧
    analyze_sentiment tbZero vdZero (List.replicate 1001 'a') =
      .clientError "Text is too long. Maximum length is 1000 characters." ∧
    (1 ≤ (['h', 'i'] : List Char).length ∧ (['h', 'i'] : List Char).length ≤ 1000) := by
  refine ⟨(analyze_length_bounds tbZero vdZero _).1 (by decide),
    (analyze_length_bounds tbZero vdZero _).2.1 (by decide) (by decide),
    (analyze_length_bounds tbZero vdZero ['h', 'i']).2.2
      { original_text := ['h', 'i'], cleaned_text := ['h', 'i'],
        sentiment := "neutral", textblob_polarity := 0,
        textblob_subjectivity := 0, vader_compound := 0,
        combined_polarity := 0 } ?_⟩
  have h : clean_text ['h', 'i'] = ['h', 'i'] := by decide
  simp [analyze_sentiment, analyze_sentiment_core, h, classify, tbZero, vdZero]
  norm_num
  decide
